import Mathlib

/-!
Verification of the statement-processing and insights-caching pipeline of the
fin-view-extract repository.  The TypeScript sources are shallowly embedded:

* `src/integrations/gemini/client.ts` — `processPdfWithGemini` and
  `generateSpendingInsights`, including the JSON-substring extraction
  (`text.match(/\x7b[\s\S]*\x7d/)`) and the `JSON.parse` semantics;
* `src/lib/api/statements.ts` — `processPdf` (currency inference, transaction
  normalisation, status transitions) and `deleteStatement`;
* the insights cache module — `getCachedInsights`, `storeInsights`,
  `generateAndStoreInsights`.

External effects (the inference HTTP call, database insert success) are
explicit parameters; database tables are lists of rows; timestamps are
naturals (milliseconds).  JavaScript truthiness on strings and numbers
(`x || null` mapping `""` and `0` to `null`) is embedded faithfully.
-/

namespace FinView

/-- JSON values, the result type of the embedded `JSON.parse`. -/
inductive Json where
  | null
  | bool (b : Bool)
  | num (q : ℚ)
  | str (s : String)
  | arr (elems : List Json)
  | obj (fields : List (String × Json))
deriving Repr, Inhabited

/-- JSON insignificant whitespace (space, tab, line feed, carriage return). -/
def isJsonWs (c : Char) : Bool :=
  c = ' ' || c = '\t' || c = '\n' || c = '\r'

/-- Skip JSON whitespace. -/
def skipWs (cs : List Char) : List Char :=
  cs.dropWhile isJsonWs

/-- Numeric value of a decimal digit character. -/
def digitVal (c : Char) : Nat := c.toNat - '0'.toNat

/-- Decimal digits to a natural number. -/
def digitsToNat (ds : List Char) : Nat :=
  ds.foldl (fun n c => 10 * n + digitVal c) 0

/-- Hexadecimal digit test. -/
def isHexDigitChar (c : Char) : Bool :=
  c.isDigit || ('a' ≤ c && c ≤ 'f') || ('A' ≤ c && c ≤ 'F')

/-- Numeric value of a hexadecimal digit character. -/
def hexVal (c : Char) : Nat :=
  if c.isDigit then c.toNat - '0'.toNat
  else if 'a' ≤ c ∧ c ≤ 'f' then c.toNat - 'a'.toNat + 10
  else c.toNat - 'A'.toNat + 10

/-- Parse the integer part of a JSON number: `0`, or a nonzero digit followed
by digits (leading zeros are not accepted by the JSON grammar). -/
def parseIntPart : List Char → Option (Nat × List Char)
  | [] => none
  | c :: rest =>
    if c = '0' then some (0, rest)
    else if c.isDigit then
      let (ds, rest') := rest.span Char.isDigit
      some (digitsToNat (c :: ds), rest')
    else none

/-- Parse the optional fraction part; consumes `.digits` only when at least
one digit follows the point (as in the JSON grammar). -/
def parseFracPart : List Char → (Nat × Nat × List Char)
  | '.' :: c :: rest =>
    if c.isDigit then
      let (ds, rest') := rest.span Char.isDigit
      (digitsToNat (c :: ds), (c :: ds).length, rest')
    else (0, 0, '.' :: c :: rest)
  | cs => (0, 0, cs)

/-- Parse the optional exponent part; consumes `e|E [+|-] digits` only when
at least one digit is present. -/
def parseExpPart : List Char → (Int × List Char)
  | e :: rest =>
    if e = 'e' ∨ e = 'E' then
      match rest with
      | '+' :: c :: rest' =>
        if c.isDigit then
          let (ds, rest'') := rest'.span Char.isDigit
          ((digitsToNat (c :: ds) : Int), rest'')
        else (0, e :: rest)
      | '-' :: c :: rest' =>
        if c.isDigit then
          let (ds, rest'') := rest'.span Char.isDigit
          (-(digitsToNat (c :: ds) : Int), rest'')
        else (0, e :: rest)
      | c :: rest' =>
        if c.isDigit then
          let (ds, rest'') := rest'.span Char.isDigit
          ((digitsToNat (c :: ds) : Int), rest'')
        else (0, e :: rest)
      | [] => (0, e :: rest)
    else (0, e :: rest)
  | [] => (0, [])

/-- The rational `±(ip.fp) * 10^ex` built from the parts of a JSON number
literal, using only `Nat`/`Int` arithmetic and one final `mkRat`. -/
def ratOfParts (neg : Bool) (ip fp fl : Nat) (ex : Int) : ℚ :=
  let numAbs : Nat := (ip * 10 ^ fl + fp) * 10 ^ ex.toNat
  let den : Nat := 10 ^ fl * 10 ^ (-ex).toNat
  mkRat (if neg then -(numAbs : Int) else (numAbs : Int)) den

/-- Parse a JSON number (sign, integer, fraction, exponent) into a rational. -/
def parseNumber (cs : List Char) : Option (ℚ × List Char) :=
  let (neg, cs₁) := match cs with
    | '-' :: r => (true, r)
    | _ => (false, cs)
  match parseIntPart cs₁ with
  | none => none
  | some (ip, cs₂) =>
    let (fp, fl, cs₃) := parseFracPart cs₂
    let (ex, cs₄) := parseExpPart cs₃
    some (ratOfParts neg ip fp fl ex, cs₄)

/-- Simple escape characters of JSON strings. -/
def escMap (c : Char) : Option Char :=
  if c = '"' then some '"'
  else if c = '\\' then some '\\'
  else if c = '/' then some '/'
  else if c = 'b' then some (Char.ofNat 8)
  else if c = 'f' then some (Char.ofNat 12)
  else if c = 'n' then some '\n'
  else if c = 'r' then some '\r'
  else if c = 't' then some '\t'
  else none

/-- Parse the body of a JSON string (the opening quote already consumed),
returning the characters and the remaining input. -/
def parseStrChars : Nat → List Char → Option (List Char × List Char)
  | 0, _ => none
  | _ + 1, [] => none
  | fuel + 1, c :: rest =>
    if c = '"' then some ([], rest)
    else if c = '\\' then
      match rest with
      | [] => none
      | e :: r₂ =>
        if e = 'u' then
          match r₂ with
          | h₁ :: h₂ :: h₃ :: h₄ :: r₃ =>
            if isHexDigitChar h₁ && isHexDigitChar h₂ && isHexDigitChar h₃ && isHexDigitChar h₄ then
              match parseStrChars fuel r₃ with
              | some (l, r) =>
                some (Char.ofNat
                  (hexVal h₁ * 4096 + hexVal h₂ * 256 + hexVal h₃ * 16 + hexVal h₄) :: l, r)
              | none => none
            else none
          | _ => none
        else
          match escMap e with
          | some ec =>
            match parseStrChars fuel r₂ with
            | some (l, r) => some (ec :: l, r)
            | none => none
          | none => none
    else if c.toNat < 32 then none
    else
      match parseStrChars fuel rest with
      | some (l, r) => some (c :: l, r)
      | none => none

mutual

/-- Parse one JSON value, returning it and the unconsumed input. -/
def parseVal : Nat → List Char → Option (Json × List Char)
  | 0, _ => none
  | fuel + 1, cs =>
    match skipWs cs with
    | [] => none
    | '{' :: rest =>
      (match skipWs rest with
       | '}' :: r₂ => some (.obj [], r₂)
       | _ =>
         match parseObjFields fuel rest with
         | some (fs, r) => some (.obj fs, r)
         | none => none)
    | '[' :: rest =>
      (match skipWs rest with
       | ']' :: r₂ => some (.arr [], r₂)
       | _ =>
         match parseArrElems fuel rest with
         | some (es, r) => some (.arr es, r)
         | none => none)
    | '"' :: rest =>
      (match parseStrChars (rest.length + 1) rest with
       | some (l, r) => some (.str (String.mk l), r)
       | none => none)
    | 't' :: rest =>
      if rest.take 3 = ['r', 'u', 'e'] then some (.bool true, rest.drop 3) else none
    | 'f' :: rest =>
      if rest.take 4 = ['a', 'l', 's', 'e'] then some (.bool false, rest.drop 4) else none
    | 'n' :: rest =>
      if rest.take 3 = ['u', 'l', 'l'] then some (.null, rest.drop 3) else none
    | c :: rest =>
      if c = '-' ∨ c.isDigit then
        match parseNumber (c :: rest) with
        | some (q, r) => some (.num q, r)
        | none => none
      else none

/-- Parse the (nonempty) member list of a JSON object, up to and including
the closing brace. -/
def parseObjFields : Nat → List Char → Option (List (String × Json) × List Char)
  | 0, _ => none
  | fuel + 1, cs =>
    match skipWs cs with
    | '"' :: rest =>
      (match parseStrChars (rest.length + 1) rest with
       | some (k, r₁) =>
         (match skipWs r₁ with
          | ':' :: r₂ =>
            (match parseVal fuel r₂ with
             | some (v, r₃) =>
               (match skipWs r₃ with
                | ',' :: r₄ =>
                  (match parseObjFields fuel r₄ with
                   | some (fs, r₅) => some ((String.mk k, v) :: fs, r₅)
                   | none => none)
                | '}' :: r₄ => some ([(String.mk k, v)], r₄)
                | _ => none)
             | none => none)
          | _ => none)
       | none => none)
    | _ => none

/-- Parse the (nonempty) element list of a JSON array, up to and including
the closing bracket. -/
def parseArrElems : Nat → List Char → Option (List Json × List Char)
  | 0, _ => none
  | fuel + 1, cs =>
    match parseVal fuel cs with
    | some (v, r₁) =>
      (match skipWs r₁ with
       | ',' :: r₂ =>
         (match parseArrElems fuel r₂ with
          | some (es, r₃) => some (v :: es, r₃)
          | none => none)
       | ']' :: r₂ => some ([v], r₂)
       | _ => none)
    | none => none

end

/-- `JSON.parse` on a character list: one value, then nothing but whitespace. -/
def jsonParseChars (cs : List Char) : Option Json :=
  match parseVal (2 * cs.length + 2) cs with
  | some (v, rest) => if (skipWs rest).isEmpty then some v else none
  | none => none

/-- `JSON.parse` on a string. -/
def jsonParse (s : String) : Option Json :=
  jsonParseChars s.toList

/-! ## The JSON-substring extraction of `gemini/client.ts`

Both client functions run `generatedText.match(/\x7b[\s\S]*\x7d/)` on the
response text.  The regex engine scans start positions left to right; at the
first `{` it greedily matches through the last `}` of the whole input.
`regexBraceMatch` embeds that engine behaviour; `greedySpanOfText` is the
same span described positionally (drop everything before the first `{`, keep
through the last `}`), used to state the claims independently of the scan. -/

/-- Not a closing brace (loop predicate of the greedy scan). -/
def notClose (c : Char) : Bool := !(c = '}')

/-- Not an opening brace. -/
def notOpen (c : Char) : Bool := !(c = '{')

/-- Longest prefix of `cs` that ends with a closing brace, i.e. everything up
to and including the last `\x7d` of `cs`; `none` when `cs` has none. -/
def lastCloseSplit (cs : List Char) : Option (List Char) :=
  match cs.reverse.dropWhile notClose with
  | [] => none
  | r => some r.reverse

/-- The regex engine's behaviour for the pattern `\x7b[\s\S]*\x7d` (unanchored,
greedy): try each start position left to right; at an opening brace, match
through the last closing brace after it. -/
def regexBraceMatch : List Char → Option (List Char)
  | [] => none
  | c :: rest =>
    if c = '{' then
      match lastCloseSplit rest with
      | some body => some ('{' :: body)
      | none => regexBraceMatch rest
    else regexBraceMatch rest

/-- The matched span, described positionally: from the first opening brace of
the text through the last closing brace, provided the text contains an opening
brace with a closing brace somewhere after it. -/
def greedySpanOfText (cs : List Char) : Option (List Char) :=
  match (cs.dropWhile notOpen).reverse.dropWhile notClose with
  | [] => none
  | r => some r.reverse

/-! ## Gemini client (`src/integrations/gemini/client.ts`)

The HTTP call is an external effect; its outcome is a parameter.  A non-OK
response status raises `Gemini API error: <status>` (the service error); an
OK response whose candidates carry no text raises the empty-response error;
otherwise the response text is processed by the regex/`JSON.parse` logic. -/

/-- Outcome of the `fetch` to the inference endpoint: a non-success HTTP
status, or a success whose extracted candidate text is present or absent. -/
inductive GeminiFetch where
  | httpError (status : Nat)
  | ok (text : Option String)

/-- The failure modes of the two client functions (the spec's
`ExtractionServiceError`, `ExtractionEmptyResponseError`,
`ExtractionFormatError`, and the empty-input rejection of the insights
client). -/
inductive ExtractError where
  | serviceError (status : Nat)
  | emptyResponse
  | formatError
  | noTransactionData

/-- `processPdfWithGemini`, from the response onwards: match
`/\x7b[\s\S]*\x7d/` against the text and `JSON.parse` the match; when there is
no match, fall back to `JSON.parse` of the entire text, and only if that also
fails raise `Failed to extract transaction data from response`. -/
def processPdfWithGemini : GeminiFetch → Except ExtractError Json
  | .httpError st => .error (.serviceError st)
  | .ok none => .error .emptyResponse
  | .ok (some text) =>
    match regexBraceMatch text.toList with
    | some cand =>
      (match jsonParseChars cand with
       | some v => .ok v
       | none => .error .formatError)
    | none =>
      (match jsonParseChars text.toList with
       | some v => .ok v
       | none => .error .formatError)

/-- A transaction as the insights client receives it (`date`, `description`,
`amount`, `category`; the caller also passes `currency`, which the prompt
simply serialises along). -/
structure SimpleTx where
  date : String
  description : String
  amount : ℚ
  category : String
  currency : Option String := none

/-- The call-and-response part of `generateSpendingInsights`: the same
regex/`JSON.parse` discipline as the PDF client, but with no whole-text
fallback — a missing match raises
`Failed to extract insights data from response`. -/
def insightsResponse : GeminiFetch → Except ExtractError Json
  | .httpError st => .error (.serviceError st)
  | .ok none => .error .emptyResponse
  | .ok (some text) =>
    match regexBraceMatch text.toList with
    | some cand =>
      (match jsonParseChars cand with
       | some v => .ok v
       | none => .error .formatError)
    | none => .error .formatError

/-- `generateSpendingInsights`: reject an empty transaction list before any
network call; otherwise make the call and handle the response. -/
def generateSpendingInsights (transactions : List SimpleTx) (fetch : GeminiFetch) :
    Except ExtractError Json :=
  if transactions.isEmpty then .error .noTransactionData
  else insightsResponse fetch

/-- Modelled from the amended reading of the spec: the PDF client's response
handling described positionally — parse the span from the first `\x7b` through
the last `\x7d`; with no such span, parse the whole text, returning whatever
JSON value it is. -/
def specPdfResponseHandling (text : String) : Except ExtractError Json :=
  match greedySpanOfText text.toList with
  | some span =>
    (match jsonParseChars span with
     | some v => .ok v
     | none => .error .formatError)
  | none =>
    (match jsonParseChars text.toList with
     | some v => .ok v
     | none => .error .formatError)

/-- Modelled from the amended reading of the spec: the insights client's
response handling — parse the span from the first `\x7b` through the last
`\x7d`; with no such span, fail with the format error. -/
def specInsightsResponseHandling (text : String) : Except ExtractError Json :=
  match greedySpanOfText text.toList with
  | some span =>
    (match jsonParseChars span with
     | some v => .ok v
     | none => .error .formatError)
  | none => .error .formatError

/-! ## Statement pipeline (`src/lib/api/statements.ts`)

Database tables are lists of rows; `update ... eq("id", ...)` maps over the
rows with a matching id.  JavaScript `x || y` on strings (`summary?.currency
|| "USD"`, `transaction.category || null`) treats the empty string as falsy,
and on numbers (`transaction.balance || null`) treats `0` as falsy; both are
embedded as such. -/

/-- `x || dflt` for an optional string: the empty string is falsy. -/
def jsOrElse (o : Option String) (dflt : String) : String :=
  match o with
  | some s => if s = "" then dflt else s
  | none => dflt

/-- `x || null` for an optional string: the empty string becomes null. -/
def jsOrNullStr (o : Option String) : Option String :=
  match o with
  | some s => if s = "" then none else some s
  | none => none

/-- `x || null` for an optional number: zero becomes null. -/
def jsOrNullNum (o : Option ℚ) : Option ℚ :=
  match o with
  | some q => if q = 0 then none else some q
  | none => none

/-- Truthiness of an optional number (`summary?.totalBillAmount` as an `if`
condition): present and nonzero. -/
def jsTruthyNumOpt (o : Option ℚ) : Bool :=
  match o with
  | some q => !(q = 0)
  | none => false

/-- The character classes of the filename regex
`[぀-ヿ㐀-䶿一-鿿豈-﫿ｦ-ﾟ]`:
kana, CJK extension A, CJK unified ideographs, compatibility ideographs,
halfwidth katakana. -/
def isJapaneseChar (c : Char) : Bool :=
  let n := c.toNat
  (0x3040 ≤ n && n ≤ 0x30ff) || (0x3400 ≤ n && n ≤ 0x4dbf) ||
  (0x4e00 ≤ n && n ≤ 0x9fff) || (0xf900 ≤ n && n ≤ 0xfaff) ||
  (0xff66 ≤ n && n ≤ 0xff9f)

/-- `String.prototype.includes` on character lists. -/
def listContainsSub (sub : List Char) : List Char → Bool
  | [] => sub.isEmpty
  | c :: rest => sub.isPrefixOf (c :: rest) || listContainsSub sub rest

/-- `haystack.includes(needle)`. -/
def strIncludes (haystack needle : String) : Bool :=
  listContainsSub needle.toList haystack.toList

/-- The Japanese-statement filename heuristic of `processPdf`: a
Japanese-script character anywhere in the file name, or one of the known bank
name substrings. -/
def hasJapaneseOrBankName (fileName : String) : Bool :=
  fileName.toList.any isJapaneseChar ||
  strIncludes fileName "SMBC" ||
  strIncludes fileName "三井住友" ||
  strIncludes fileName "みずほ" ||
  strIncludes fileName "Mizuho" ||
  strIncludes fileName "MUFG"

/-- Currency inference of `processPdf`: start from
`summary?.currency || "USD"`, then force `JPY` when the filename heuristic
fires. -/
def inferCurrency (summaryCurrency : Option String) (fileName : String) : String :=
  let detected := jsOrElse summaryCurrency "USD"
  if hasJapaneseOrBankName fileName then "JPY" else detected

/-- The statement-summary fields that `processPdf` reads. -/
structure Summary where
  currency : Option String := none
  totalBillAmount : Option ℚ := none

/-- A raw extracted transaction as returned inside the Gemini JSON. -/
structure RawTx where
  date : Option String := none
  description : Option String := none
  amount : Option ℚ := none
  category : Option String := none
  balance : Option ℚ := none

/-- The decoded shape of the Gemini extraction result that `processPdf`
consumes (`extractedData.summary`, `extractedData.transactions`). -/
structure GeminiData where
  summary : Option Summary := none
  transactions : Option (List RawTx) := none

/-- The metadata map written for Japanese credit-card statements. -/
structure StatementMetadata where
  total_bill_amount : ℚ
  statement_type : String

/-- A row of the `statements` table (the fields the core touches). -/
structure StatementRow where
  id : String
  user_id : String
  file_name : String
  storage_path : String
  processing_status : String
  currency : Option String := none
  metadata : Option StatementMetadata := none

/-- A row of the `transactions` table, as built by `processPdf`. -/
structure TransactionRow where
  statement_id : String
  user_id : String
  transaction_date : Option String
  description : Option String
  amount : Option ℚ
  type : String
  category : Option String
  balance : Option ℚ
  currency : String

/-- The two tables the statement pipeline touches. -/
structure DB where
  statements : List StatementRow
  transactions : List TransactionRow

/-- `update(...).eq("id", statementId)` on the statements table. -/
def updateStatement (db : DB) (statementId : String) (f : StatementRow → StatementRow) : DB :=
  { db with
    statements := db.statements.map fun r => if r.id = statementId then f r else r }

/-- `update(\x7b processing_status \x7d).eq("id", ...)`. -/
def setStatus (db : DB) (statementId status : String) : DB :=
  updateStatement db statementId fun r => { r with processing_status := status }

/-- `update(\x7b currency \x7d).eq("id", ...)`. -/
def setCurrency (db : DB) (statementId currency : String) : DB :=
  updateStatement db statementId fun r => { r with currency := some currency }

/-- `update(\x7b currency, metadata \x7d).eq("id", ...)` for the
credit-card-bill branch. -/
def setCurrencyAndMeta (db : DB) (statementId currency : String) (bill : ℚ) : DB :=
  updateStatement db statementId fun r =>
    { r with currency := some currency,
             metadata := some ⟨bill, "credit_card"⟩ }

/-- Direction tag: `transaction.amount < 0 ? "debit" : "credit"` (an absent
amount compares false in JavaScript, giving `credit`). -/
def txType (amount : Option ℚ) : String :=
  match amount with
  | some a => if a < 0 then "debit" else "credit"
  | none => "credit"

/-- One entry of `formattedTransactions` in `processPdf`. -/
def formatTransaction (statementId userId : String) (currency : String) (t : RawTx) :
    TransactionRow :=
  { statement_id := statementId
    user_id := userId
    transaction_date := t.date
    description := t.description
    amount := t.amount
    type := txType t.amount
    category := jsOrNullStr t.category
    balance := jsOrNullNum t.balance
    currency := currency }

/-- `processPdf`, from the `processing` status update to the terminal status.
The extraction call's outcome is a parameter (`Except` failure for a thrown
service/empty/format error, `none` for a falsy `extractedData`); `insertOk`
is the outcome of the bulk transaction insert, which is all-or-nothing.
Status updates themselves return ignored errors in the source, so they are
total here.  Every failure path lands in the `catch` block, which sets the
status to `error` and deletes nothing. -/
def processPdf (db : DB) (statementId userId fileName : String)
    (extracted : Except ExtractError (Option GeminiData)) (insertOk : Bool) : DB :=
  let db₁ := setStatus db statementId "processing"
  match extracted with
  | .error _ => setStatus db₁ statementId "error"
  | .ok none => setStatus db₁ statementId "error"
  | .ok (some d) =>
    match d.transactions with
    | none => setStatus db₁ statementId "error"
    | some txs =>
      let detectedCurrency := inferCurrency (d.summary.bind Summary.currency) fileName
      let db₂ := setCurrency db₁ statementId detectedCurrency
      let formatted := txs.map (formatTransaction statementId userId detectedCurrency)
      let db₃ :=
        match d.summary.bind Summary.totalBillAmount with
        | some bill =>
          if detectedCurrency = "JPY" ∧ bill ≠ 0 then
            setCurrencyAndMeta db₂ statementId detectedCurrency bill
          else db₂
        | none => db₂
      if insertOk then
        setStatus { db₃ with transactions := db₃.transactions ++ formatted }
          statementId "processed"
      else setStatus db₃ statementId "error"

/-- `deleteStatement`: fetch the row (scoped by id and user), delete the
transactions, delete the statement row, then remove the stored document —
whose failure is logged and ignored.  `storage` is the blob store as a list
of paths; the three `Ok` flags are the outcomes of the three external
deletes. -/
def deleteStatement (db : DB) (storage : List String) (statementId userId : String)
    (txDeleteOk stDeleteOk storageDeleteOk : Bool) :
    DB × List String × Bool :=
  match db.statements.find? (fun r => r.id = statementId && r.user_id = userId) with
  | none => (db, storage, false)
  | some st =>
    if !txDeleteOk then (db, storage, false)
    else
      let db₁ := { db with
        transactions := db.transactions.filter
          fun t => !(t.statement_id = statementId && t.user_id = userId) }
      if !stDeleteOk then (db₁, storage, false)
      else
        let db₂ := { db₁ with
          statements := db₁.statements.filter
            fun r => !(r.id = statementId && r.user_id = userId) }
        if storageDeleteOk then
          (db₂, storage.filter (fun p => !(p = st.storage_path)), true)
        else (db₂, storage, true)

/-! ## Insights cache module

`getCachedInsights`, `storeInsights`, `generateAndStoreInsights`.
Timestamps are naturals (milliseconds); `expires_at > now` in the PostgREST
filter is strict.  `Json.obj` field lists follow the later-entry-wins
convention, so the spread `\x7b ...insights, currency \x7d` appends the
`currency` field. -/

/-- A row of the `insights` table. -/
structure InsightRow where
  user_id : String
  insights_data : Json
  generated_at : Nat
  expires_at : Nat

/-- `order("generated_at", descending).limit(1)`: a latest row of the list
(the first one among ties). -/
def pickLatest : List InsightRow → Option InsightRow
  | [] => none
  | r :: rest =>
    match pickLatest rest with
    | none => some r
    | some best => if best.generated_at > r.generated_at then some best else some r

/-- `getCachedInsights`: the single most recently generated unexpired row for
the user; no row is a valid absent result, not an error (`PGRST116`). -/
def getCachedInsights (table : List InsightRow) (userId : String) (now : Nat) :
    Option InsightRow :=
  pickLatest (table.filter fun r => r.user_id = userId && now < r.expires_at)

/-- The cache validity window: 24 hours, in milliseconds. -/
def hours24Ms : Nat := 24 * 60 * 60 * 1000

/-- `storeInsights`: delete every row of the user, then insert one row
stamped `generated_at = now`, `expires_at = now + 24h`.  `insertOk` is the
outcome of the database insert; on failure the deletion has still happened. -/
def storeInsights (table : List InsightRow) (userId : String) (insights : Json)
    (now : Nat) (insertOk : Bool) : List InsightRow × Bool :=
  let deleted := table.filter fun r => !(r.user_id = userId)
  if insertOk then
    (deleted ++ [⟨userId, insights, now, now + hours24Ms⟩], true)
  else (deleted, false)

/-- `tx.currency || "USD"`. -/
def txCurrencyOf (t : SimpleTx) : String := jsOrElse t.currency "USD"

/-- Key insertion into a JavaScript object: non-integer string keys keep
first-occurrence order. -/
def insertKey (acc : List String) (c : String) : List String :=
  if c ∈ acc then acc else acc ++ [c]

/-- The keys of `currencyCounts` in first-occurrence order. -/
def currencyKeys (txs : List SimpleTx) : List String :=
  txs.foldl (fun acc t => insertKey acc (txCurrencyOf t)) []

/-- `currencyCounts[c]`. -/
def currencyCount (txs : List SimpleTx) (c : String) : Nat :=
  (txs.filter fun t => txCurrencyOf t = c).length

/-- The most common currency: iterate `Object.entries(currencyCounts)` with
`maxCount = 0`, `primaryCurrency = "USD"`, replacing on a strictly greater
count. -/
def primaryCurrency (txs : List SimpleTx) : String :=
  ((currencyKeys txs).foldl
    (fun best c =>
      if currencyCount txs c > best.2 then (c, currencyCount txs c) else best)
    ("USD", 0)).1

/-- The spread `\x7b ...insights, currency: primaryCurrency \x7d` (spreading a
non-object yields just the `currency` field). -/
def withCurrencyField (j : Json) (cur : String) : Json :=
  match j with
  | .obj fs => .obj (fs ++ [("currency", .str cur)])
  | _ => .obj [("currency", .str cur)]

/-- Failures surfaced by `generateAndStoreInsights`: a client failure, or a
failed cache insert. -/
inductive InsightsFlowError where
  | client (e : ExtractError)
  | storeFailed

/-- `generateAndStoreInsights`: compute the primary currency, call the
insights client, and only on success store the payload (with the currency
attached) through `storeInsights`.  On a client failure the table is
untouched. -/
def generateAndStoreInsights (table : List InsightRow) (userId : String)
    (transactions : List SimpleTx) (fetch : GeminiFetch) (now : Nat)
    (insertOk : Bool) : List InsightRow × Except InsightsFlowError Json :=
  match generateSpendingInsights transactions fetch with
  | .error e => (table, .error (.client e))
  | .ok insights =>
    let insightsWithCurrency := withCurrencyField insights (primaryCurrency transactions)
    match storeInsights table userId insightsWithCurrency now insertOk with
    | (table', true) => (table', .ok insightsWithCurrency)
    | (table', false) => (table', .error .storeFailed)

/-! ## Embedded `JSON.parse` sanity checks -/

example : jsonParse "42" = some (.num (mkRat 42 1)) := rfl
example : jsonParse "null" = some .null := rfl
example : jsonParse "\x7b\x7d" = some (.obj []) := rfl
example : jsonParse "\x7b\"a\":1\x7d x \x7b\"b\":2\x7d" = none := rfl

/-! ## The regex match characterised positionally -/

lemma notClose_eq_true {c : Char} : notClose c = true ↔ c ≠ '}' := by
  simp [notClose]

lemma notOpen_eq_true {c : Char} : notOpen c = true ↔ c ≠ '{' := by
  simp [notOpen]

lemma dropWhile_notClose_eq_nil {l : List Char} (h : '}' ∉ l) :
    l.dropWhile notClose = [] := by
  rw [List.dropWhile_eq_nil_iff]
  intro x hx
  rw [notClose_eq_true]
  exact fun hxe => h (by rwa [hxe] at hx)

lemma dropWhile_notClose_ne_nil {l : List Char} (h : '}' ∈ l) :
    l.dropWhile notClose ≠ [] := by
  rw [ne_eq, List.dropWhile_eq_nil_iff]
  intro hall
  have := hall '}' h
  rw [notClose_eq_true] at this
  exact this rfl

lemma regexBraceMatch_of_no_close (cs : List Char) (h : '}' ∉ cs) :
    regexBraceMatch cs = none := by
  induction cs with
  | nil => rfl
  | cons c rest ih =>
    have hrest : '}' ∉ rest := fun hm => h (List.mem_cons_of_mem _ hm)
    rw [regexBraceMatch]
    by_cases hc : c = '{'
    · rw [if_pos hc]
      have hnone : lastCloseSplit rest = none := by
        unfold lastCloseSplit
        rw [dropWhile_notClose_eq_nil (fun hm => hrest (List.mem_reverse.mp hm))]
      rw [hnone]
      exact ih hrest
    · rw [if_neg hc]
      exact ih hrest

/-- The regex engine's match coincides with the positional description:
first `\x7b` through last `\x7d`. -/
lemma regexBraceMatch_eq_greedySpan (cs : List Char) :
    regexBraceMatch cs = greedySpanOfText cs := by
  induction cs with
  | nil => rfl
  | cons c rest ih =>
    by_cases hc : c = '{'
    · subst hc
      rw [regexBraceMatch, if_pos rfl]
      have hdrop : ('{' :: rest).dropWhile notOpen = '{' :: rest := by
        rw [List.dropWhile_cons]
        simp [notOpen]
      by_cases hcl : '}' ∈ rest
      · -- there is a closing brace after the first opening brace
        have hne : rest.reverse.dropWhile notClose ≠ [] :=
          dropWhile_notClose_ne_nil (List.mem_reverse.mpr hcl)
        have hrev : ('{' :: rest).reverse.dropWhile notClose =
            rest.reverse.dropWhile notClose ++ ['{'] := by
          rw [List.reverse_cons, List.dropWhile_append]
          rw [if_neg (by simpa [List.isEmpty_iff] using hne)]
        unfold greedySpanOfText
        rw [hdrop, hrev]
        unfold lastCloseSplit
        rcases hD : rest.reverse.dropWhile notClose with _ | ⟨d, ds⟩
        · exact absurd hD hne
        · simp
      · -- no closing brace after: engine moves on and ultimately fails
        have hD : rest.reverse.dropWhile notClose = [] :=
          dropWhile_notClose_eq_nil (fun hm => hcl (List.mem_reverse.mp hm))
        have hnone : lastCloseSplit rest = none := by
          unfold lastCloseSplit
          rw [hD]
        have hrev : ('{' :: rest).reverse.dropWhile notClose = [] := by
          rw [List.reverse_cons, List.dropWhile_append, hD]
          simp [notClose]
        rw [hnone]
        unfold greedySpanOfText
        rw [hdrop, hrev]
        exact regexBraceMatch_of_no_close rest hcl
    · rw [regexBraceMatch, if_neg hc, ih]
      unfold greedySpanOfText
      rw [List.dropWhile_cons, if_pos (notOpen_eq_true.mpr hc)]

/-! ## Claim C2 -/

/-- C2, counterexample.  The response text `42` contains no brace at all, yet
`processPdfWithGemini` does not fail with the format error: the no-match
branch falls back to `JSON.parse` of the whole text, which succeeds and
returns the (non-object) value `42`. -/
theorem C2_counterexample :
    regexBraceMatch "42".toList = none ∧
    processPdfWithGemini (.ok (some "42")) = .ok (.num (mkRat 42 1)) ∧
    processPdfWithGemini (.ok (some "42")) ≠ .error .formatError := by
  refine ⟨rfl, rfl, ?_⟩
  intro hcontra
  rw [show processPdfWithGemini (.ok (some "42")) = .ok (.num (mkRat 42 1)) from rfl]
    at hcontra
  exact Except.noConfusion hcontra

/-- C2, amended.  For every response text, both clients match the substring
from the first `\x7b` through the last `\x7d` (greedily — it may span several
objects) and `JSON.parse` it: success returns the parsed value, failure is the
format error.  When no such substring exists, `generateSpendingInsights`
fails with the format error, while `processPdfWithGemini` parses the entire
text as JSON, returning any valid JSON value and failing only when that also
fails. -/
theorem C2_response_handling (text : String) (txs : List SimpleTx) (h : txs ≠ []) :
    processPdfWithGemini (.ok (some text)) = specPdfResponseHandling text ∧
    generateSpendingInsights txs (.ok (some text)) = specInsightsResponseHandling text := by
  constructor
  · simp only [processPdfWithGemini, specPdfResponseHandling]
    rw [regexBraceMatch_eq_greedySpan]
  · unfold generateSpendingInsights
    rw [if_neg (by simpa [List.isEmpty_iff] using h)]
    simp only [insightsResponse, specInsightsResponseHandling]
    rw [regexBraceMatch_eq_greedySpan]

/-- C2, witness: applying the amended claim to the prose-wrapped response of
the testable-properties section and a one-element transaction list. -/
theorem C2_response_handling_witness :
    processPdfWithGemini
        (.ok (some "Here is the data: \x7b\"summary\":\x7b\x7d,\"transactions\":[]\x7d"))
      = specPdfResponseHandling
          "Here is the data: \x7b\"summary\":\x7b\x7d,\"transactions\":[]\x7d" ∧
    generateSpendingInsights
        [{ date := "2024-01-01", description := "X", amount := 1, category := "C" }]
        (.ok (some "Here is the data: \x7b\"summary\":\x7b\x7d,\"transactions\":[]\x7d"))
      = specInsightsResponseHandling
          "Here is the data: \x7b\"summary\":\x7b\x7d,\"transactions\":[]\x7d" :=
  C2_response_handling
    "Here is the data: \x7b\"summary\":\x7b\x7d,\"transactions\":[]\x7d"
    [{ date := "2024-01-01", description := "X", amount := 1, category := "C" }]
    (List.cons_ne_nil _ _)

example :
    specPdfResponseHandling
        "Here is the data: \x7b\"summary\":\x7b\x7d,\"transactions\":[]\x7d"
      = .ok (.obj [("summary", .obj []), ("transactions", .arr [])]) := rfl

/-! ## Claim C3 -/

/-- C3, counterexample.  The file name `statement.pdf` triggers no Japanese
heuristic and the summary currency is present but the empty string; the code
returns the baseline `USD`, not the present summary value `""`. -/
theorem C3_counterexample :
    hasJapaneseOrBankName "statement.pdf" = false ∧
    inferCurrency (some "") "statement.pdf" = "USD" ∧
    inferCurrency (some "") "statement.pdf" ≠ "" := by
  refine ⟨by decide, rfl, by decide⟩

/-- C3, amended.  If the file name contains a Japanese-script character or a
known Japanese-bank substring, `inferCurrency` returns `JPY` regardless of the
summary currency; otherwise it returns the summary currency when present and
non-empty, else the baseline `USD` (a present empty-string currency is falsy
in JavaScript and also yields `USD`). -/
theorem C3_currency_inference (fileName : String) (summaryCurrency : Option String) :
    (hasJapaneseOrBankName fileName = true →
      inferCurrency summaryCurrency fileName = "JPY") ∧
    (hasJapaneseOrBankName fileName = false →
      (∀ c, summaryCurrency = some c → c ≠ "" →
        inferCurrency summaryCurrency fileName = c) ∧
      (summaryCurrency = none → inferCurrency summaryCurrency fileName = "USD") ∧
      (summaryCurrency = some "" → inferCurrency summaryCurrency fileName = "USD")) := by
  unfold inferCurrency
  constructor
  · intro hjp
    rw [if_pos hjp]
  · intro hjp
    rw [if_neg (by rw [hjp]; exact Bool.false_ne_true)]
    refine ⟨?_, ?_, ?_⟩
    · intro c hc hne
      rw [hc]
      show (if c = "" then "USD" else c) = c
      rw [if_neg hne]
    · intro hc
      rw [hc]
      rfl
    · intro hc
      rw [hc]
      rfl

/-- C3, witness: a Japanese file name overrides a `USD` summary to `JPY`, and
a plain file name passes a non-empty summary currency through. -/
theorem C3_currency_inference_witness :
    inferCurrency (some "USD") "明細書.pdf" = "JPY" ∧
    inferCurrency (some "EUR") "statement.pdf" = "EUR" :=
  ⟨(C3_currency_inference "明細書.pdf" (some "USD")).1 (by decide),
   ((C3_currency_inference "statement.pdf" (some "EUR")).2 (by decide)).1
     "EUR" rfl (by decide)⟩

/-! ## Claim C4 -/

/-- C4: in every transaction row built by the normalizer (and bulk-inserted by
`processPdf`), a negative extracted amount is tagged `debit` and a
non-negative one `credit`. -/
theorem C4_direction_tag (statementId userId currency : String) (t : RawTx) (a : ℚ)
    (h : t.amount = some a) :
    (a < 0 → (formatTransaction statementId userId currency t).type = "debit") ∧
    (0 ≤ a → (formatTransaction statementId userId currency t).type = "credit") := by
  unfold formatTransaction txType
  rw [h]
  constructor
  · intro hlt
    simp only [if_pos hlt]
  · intro hge
    simp only [if_neg (not_lt.mpr hge)]

/-- C4, witness: a withdrawal of −5 is a `debit`, a deposit of 3 a `credit`. -/
theorem C4_direction_tag_witness :
    (formatTransaction "s1" "u1" "USD"
      { date := some "2024-01-01", description := some "ATM", amount := some (-5) }).type
        = "debit" ∧
    (formatTransaction "s1" "u1" "USD"
      { date := some "2024-01-02", description := some "SALARY", amount := some 3 }).type
        = "credit" :=
  ⟨(C4_direction_tag "s1" "u1" "USD"
      { date := some "2024-01-01", description := some "ATM", amount := some (-5) }
      (-5) rfl).1 (by norm_num),
   (C4_direction_tag "s1" "u1" "USD"
      { date := some "2024-01-02", description := some "SALARY", amount := some 3 }
      3 rfl).2 (by norm_num)⟩

/-! ## Claim C1 -/

lemma setStatus_setStatus (db : DB) (s a b : String) :
    setStatus (setStatus db s a) s b = setStatus db s b := by
  unfold setStatus updateStatement
  simp only [List.map_map]
  refine congrArg (fun st => DB.mk st db.transactions) ?_
  refine congrFun (congrArg List.map ?_) db.statements
  funext r
  by_cases hr : r.id = s
  · simp [Function.comp, hr]
  · simp [Function.comp, hr]

/-- C1: when the extraction call fails (service error, empty response, format
error — any thrown `ExtractError`), the pipeline creates no transaction row
and only flips the statement's `processing_status` to `error`; every
statement row survives with all its other fields intact. -/
theorem C1_extraction_failure (db : DB) (statementId userId fileName : String)
    (e : ExtractError) (insertOk : Bool) :
    (processPdf db statementId userId fileName (.error e) insertOk).transactions
        = db.transactions ∧
    (processPdf db statementId userId fileName (.error e) insertOk).statements
        = db.statements.map fun r =>
            if r.id = statementId then { r with processing_status := "error" } else r := by
  have hred : processPdf db statementId userId fileName (.error e) insertOk
      = setStatus (setStatus db statementId "processing") statementId "error" := rfl
  rw [hred, setStatus_setStatus]
  exact ⟨rfl, rfl⟩

/-! ## Claim C9 -/

/-- C9: the pipeline has no transition guard.  Started on a statement whose
status is already `processing` (with the transaction row of the in-flight run
already inserted), `processPdf` proceeds unconditionally: it re-enters
`processing`, inserts the transactions a second time (two rows afterwards),
and finishes in `processed`. -/
theorem C9_no_processing_guard :
    (processPdf
        ⟨[{ id := "s1", user_id := "u1", file_name := "stmt.pdf",
            storage_path := "statements/u1/stmt.pdf",
            processing_status := "processing" }],
          [formatTransaction "s1" "u1" "USD"
            { date := some "2024-01-01", description := some "CAFE",
              amount := some (-5) }]⟩
        "s1" "u1" "stmt.pdf"
        (.ok (some { transactions :=
                       some [{ date := some "2024-01-01",
                               description := some "CAFE",
                               amount := some (-5) }] }))
        true).transactions.length = 2 ∧
    (processPdf
        ⟨[{ id := "s1", user_id := "u1", file_name := "stmt.pdf",
            storage_path := "statements/u1/stmt.pdf",
            processing_status := "processing" }],
          [formatTransaction "s1" "u1" "USD"
            { date := some "2024-01-01", description := some "CAFE",
              amount := some (-5) }]⟩
        "s1" "u1" "stmt.pdf"
        (.ok (some { transactions :=
                       some [{ date := some "2024-01-01",
                               description := some "CAFE",
                               amount := some (-5) }] }))
        true).statements.map StatementRow.processing_status = ["processed"] :=
  ⟨rfl, rfl⟩

/-! ## Claim C8 -/

/-- C8, counterexample.  A raw transaction with a present running balance of
`0` is stored with a null balance: `transaction.balance || null` treats `0` as
falsy. -/
theorem C8_counterexample :
    (({ date := some "2024-01-01", description := some "PAYMENT",
        amount := some 5, category := some "Food", balance := some 0 } : RawTx).balance
      = some 0) ∧
    (formatTransaction "s1" "u1" "USD"
      { date := some "2024-01-01", description := some "PAYMENT",
        amount := some 5, category := some "Food", balance := some 0 }).balance
      = none := by
  constructor
  · rfl
  · show (if (0 : ℚ) = 0 then (none : Option ℚ) else some 0) = none
    rw [if_pos rfl]

/-- C8, amended.  The normalizer stores the category unchanged when present
and non-empty, and the running balance unchanged when present and nonzero;
it stores null when the field is absent — and also when the category is the
present empty string or the balance is the present `0`, both falsy in
JavaScript. -/
theorem C8_passthrough (statementId userId currency : String) (t : RawTx) :
    (∀ s, t.category = some s → s ≠ "" →
      (formatTransaction statementId userId currency t).category = some s) ∧
    (t.category = none ∨ t.category = some "" →
      (formatTransaction statementId userId currency t).category = none) ∧
    (∀ q, t.balance = some q → q ≠ 0 →
      (formatTransaction statementId userId currency t).balance = some q) ∧
    (t.balance = none ∨ t.balance = some 0 →
      (formatTransaction statementId userId currency t).balance = none) := by
  unfold formatTransaction
  refine ⟨?_, ?_, ?_, ?_⟩
  · intro s hs hne
    show jsOrNullStr t.category = some s
    rw [hs]
    show (if s = "" then none else some s) = some s
    rw [if_neg hne]
  · intro hcat
    show jsOrNullStr t.category = none
    rcases hcat with hc | hc <;> rw [hc] <;> simp [jsOrNullStr]
  · intro q hq hne
    show jsOrNullNum t.balance = some q
    rw [hq]
    show (if q = 0 then none else some q) = some q
    rw [if_neg hne]
  · intro hbal
    show jsOrNullNum t.balance = none
    rcases hbal with hb | hb <;> rw [hb] <;> simp [jsOrNullNum]

/-- C8, witness: a non-empty category and nonzero balance pass through; an
absent category and absent balance store null. -/
theorem C8_passthrough_witness :
    (formatTransaction "s1" "u1" "USD"
      { date := some "2024-01-01", description := some "CAFE",
        amount := some (-7), category := some "Eating Out",
        balance := some 100 }).category = some "Eating Out" ∧
    (formatTransaction "s1" "u1" "USD"
      { date := some "2024-01-01", description := some "CAFE",
        amount := some (-7), category := some "Eating Out",
        balance := some 100 }).balance = some 100 ∧
    (formatTransaction "s1" "u1" "USD"
      { date := some "2024-01-02", description := some "MISC",
        amount := some 2 }).category = none ∧
    (formatTransaction "s1" "u1" "USD"
      { date := some "2024-01-02", description := some "MISC",
        amount := some 2 }).balance = none :=
  ⟨(C8_passthrough "s1" "u1" "USD"
      { date := some "2024-01-01", description := some "CAFE",
        amount := some (-7), category := some "Eating Out",
        balance := some 100 }).1 "Eating Out" rfl (by decide),
   (C8_passthrough "s1" "u1" "USD"
      { date := some "2024-01-01", description := some "CAFE",
        amount := some (-7), category := some "Eating Out",
        balance := some 100 }).2.2.1 100 rfl (by norm_num),
   (C8_passthrough "s1" "u1" "USD"
      { date := some "2024-01-02", description := some "MISC",
        amount := some 2 }).2.1 (Or.inl rfl),
   (C8_passthrough "s1" "u1" "USD"
      { date := some "2024-01-02", description := some "MISC",
        amount := some 2 }).2.2.2 (Or.inl rfl)⟩

/-! ## Claim C5 -/

lemma pickLatest_mem (l : List InsightRow) :
    ∀ r, pickLatest l = some r → r ∈ l := by
  induction l with
  | nil => exact fun r h => Option.noConfusion h
  | cons x xs ih =>
    intro r h
    rw [pickLatest] at h
    cases hp : pickLatest xs with
    | none =>
      rw [hp] at h
      have h' : some x = some r := h
      rw [← Option.some.inj h']
      exact List.mem_cons_self _ _
    | some best =>
      rw [hp] at h
      have h' : (if best.generated_at > x.generated_at then some best else some x)
          = some r := h
      by_cases hgt : best.generated_at > x.generated_at
      · rw [if_pos hgt] at h'
        rw [← Option.some.inj h']
        exact List.mem_cons_of_mem _ (ih best hp)
      · rw [if_neg hgt] at h'
        rw [← Option.some.inj h']
        exact List.mem_cons_self _ _

lemma pickLatest_max (l : List InsightRow) :
    ∀ r, pickLatest l = some r → ∀ x ∈ l, x.generated_at ≤ r.generated_at := by
  induction l with
  | nil => exact fun r h => Option.noConfusion h
  | cons y ys ih =>
    intro r h x hx
    rw [pickLatest] at h
    cases hp : pickLatest ys with
    | none =>
      rw [hp] at h
      have h' : some y = some r := h
      have hys : ys = [] := by
        cases ys with
        | nil => rfl
        | cons a as =>
          exfalso
          rw [pickLatest] at hp
          cases hpa : pickLatest as with
          | none =>
            rw [hpa] at hp
            exact Option.noConfusion hp
          | some b =>
            rw [hpa] at hp
            have hp' : (if b.generated_at > a.generated_at then some b else some a)
                = none := hp
            by_cases hgt : b.generated_at > a.generated_at
            · rw [if_pos hgt] at hp'
              exact Option.noConfusion hp'
            · rw [if_neg hgt] at hp'
              exact Option.noConfusion hp'
      subst hys
      rw [← Option.some.inj h']
      rcases List.mem_cons.mp hx with hxy | hxn
      · rw [hxy]
      · exact absurd hxn (List.not_mem_nil x)
    | some best =>
      rw [hp] at h
      have h' : (if best.generated_at > y.generated_at then some best else some y)
          = some r := h
      by_cases hgt : best.generated_at > y.generated_at
      · rw [if_pos hgt] at h'
        have hbr : best = r := Option.some.inj h'
        rcases List.mem_cons.mp hx with hxy | hxs
        · rw [hxy, ← hbr]
          exact le_of_lt hgt
        · exact ih r (by rw [hp, hbr]) x hxs
      · rw [if_neg hgt] at h'
        have hyr : y = r := Option.some.inj h'
        rcases List.mem_cons.mp hx with hxy | hxs
        · rw [hxy, ← hyr]
        · calc x.generated_at ≤ best.generated_at := ih best hp x hxs
            _ ≤ y.generated_at := not_lt.mp hgt
            _ = r.generated_at := by rw [hyr]

lemma pickLatest_eq_none_iff (l : List InsightRow) :
    pickLatest l = none ↔ l = [] := by
  cases l with
  | nil => exact ⟨fun _ => rfl, fun _ => rfl⟩
  | cons x xs =>
    constructor
    · intro h
      exfalso
      rw [pickLatest] at h
      cases hp : pickLatest xs with
      | none =>
        rw [hp] at h
        exact Option.noConfusion h
      | some best =>
        rw [hp] at h
        have h' : (if best.generated_at > x.generated_at then some best else some x)
            = none := h
        by_cases hgt : best.generated_at > x.generated_at
        · rw [if_pos hgt] at h'
          exact Option.noConfusion h'
        · rw [if_neg hgt] at h'
          exact Option.noConfusion h'
    · intro h
      exact List.noConfusion h

/-- C5: a row returned by the cached-insights read belongs to the table, is
owned by the user, is strictly unexpired, and no unexpired row of the user
was generated later; the read returns absent exactly when the user has no
strictly unexpired row — in particular when an expired row is the user's
only row.  Absence is a return value, not an error. -/
theorem C5_cache_read (table : List InsightRow) (userId : String) (now : Nat) :
    (∀ r, getCachedInsights table userId now = some r →
        r ∈ table ∧ r.user_id = userId ∧ now < r.expires_at ∧
        ∀ r' ∈ table, r'.user_id = userId → now < r'.expires_at →
          r'.generated_at ≤ r.generated_at) ∧
    (getCachedInsights table userId now = none ↔
        ∀ r ∈ table, r.user_id = userId → r.expires_at ≤ now) := by
  constructor
  · intro r h
    unfold getCachedInsights at h
    have hmem := pickLatest_mem _ r h
    rw [List.mem_filter] at hmem
    obtain ⟨hmem, hp⟩ := hmem
    rw [Bool.and_eq_true, decide_eq_true_eq, decide_eq_true_eq] at hp
    refine ⟨hmem, hp.1, hp.2, ?_⟩
    intro r' hr' hu he
    refine pickLatest_max _ r h r' (List.mem_filter.mpr ⟨hr', ?_⟩)
    rw [Bool.and_eq_true, decide_eq_true_eq, decide_eq_true_eq]
    exact ⟨hu, he⟩
  · unfold getCachedInsights
    rw [pickLatest_eq_none_iff, List.filter_eq_nil_iff]
    constructor
    · intro h r hr hu
      have := h r hr
      rw [Bool.and_eq_true, decide_eq_true_eq, decide_eq_true_eq, not_and] at this
      exact not_lt.mp (this hu)
    · intro h r hr
      rw [Bool.and_eq_true, decide_eq_true_eq, decide_eq_true_eq, not_and]
      intro hu
      exact not_lt.mpr (h r hr hu)

/-- C5, witness: a user whose only cache row expired at 10 reads absent at
time 20. -/
theorem C5_cache_read_witness :
    getCachedInsights [⟨"u1", Json.null, 5, 10⟩] "u1" 20 = none :=
  (C5_cache_read [⟨"u1", Json.null, 5, 10⟩] "u1" 20).2.mpr (by
    intro r hr _
    rw [List.mem_singleton] at hr
    rw [hr]
    decide)

/-! ## Claim C6 -/

/-- C6: when `generateAndStoreInsights` succeeds, the user's cache is exactly
one row — the freshly inserted one, stamped `generated_at = now` and
`expires_at = now + 24h` and carrying the returned payload; every
pre-existing row of the user is gone. -/
theorem C6_single_cache_row (table : List InsightRow) (userId : String)
    (txs : List SimpleTx) (fetch : GeminiFetch) (now : Nat) (insertOk : Bool)
    (table' : List InsightRow) (payload : Json)
    (h : generateAndStoreInsights table userId txs fetch now insertOk
          = (table', .ok payload)) :
    table'.filter (fun r => r.user_id = userId)
      = [⟨userId, payload, now, now + hours24Ms⟩] := by
  unfold generateAndStoreInsights at h
  cases hg : generateSpendingInsights txs fetch with
  | error e =>
    rw [hg] at h
    have hsnd := congrArg Prod.snd h
    exact Except.noConfusion hsnd
  | ok insights =>
    rw [hg] at h
    cases insertOk with
    | false =>
      have h' : ((table.filter fun r => !(r.user_id = userId)),
            (Except.error InsightsFlowError.storeFailed : Except InsightsFlowError Json))
          = (table', Except.ok payload) := h
      have hsnd := congrArg Prod.snd h'
      exact Except.noConfusion hsnd
    | true =>
      have h' : ((table.filter fun r => !(r.user_id = userId)) ++
            [⟨userId, withCurrencyField insights (primaryCurrency txs), now,
              now + hours24Ms⟩],
            (Except.ok (withCurrencyField insights (primaryCurrency txs)) :
              Except InsightsFlowError Json))
          = (table', Except.ok payload) := h
      rw [Prod.mk.injEq] at h'
      obtain ⟨h₁, h₂⟩ := h'
      have h₃ : withCurrencyField insights (primaryCurrency txs) = payload :=
        Except.ok.inj h₂
      rw [← h₁, ← h₃]
      rw [List.filter_append, List.filter_filter]
      have hleft : table.filter
          (fun a => decide (a.user_id = userId) && !decide (a.user_id = userId)) = [] := by
        rw [List.filter_eq_nil_iff]
        intro a _
        cases hda : decide (a.user_id = userId) <;> simp [hda]
      rw [hleft]
      simp

/-- C6, witness: a stale row of the user is replaced by the single fresh row
stamped at 100 and expiring 24 hours later. -/
theorem C6_single_cache_row_witness :
    ([⟨"u1", Json.obj [("currency", Json.str "JPY")], 100, 100 + hours24Ms⟩]
        : List InsightRow).filter (fun r => r.user_id = "u1")
      = [⟨"u1", Json.obj [("currency", Json.str "JPY")], 100, 100 + hours24Ms⟩] :=
  C6_single_cache_row [⟨"u1", Json.null, 0, 1⟩] "u1"
    [{ date := "2024-01-01", description := "X", amount := 1, category := "C",
       currency := some "JPY" }]
    (.ok (some "\x7b\x7d")) 100 true
    [⟨"u1", Json.obj [("currency", Json.str "JPY")], 100, 100 + hours24Ms⟩]
    (Json.obj [("currency", Json.str "JPY")]) rfl

/-! ## Claim C7 -/

/-- C7: when the insights client fails — including the immediate rejection of
an empty transaction list — `generateAndStoreInsights` performs no cache
mutation: the table is returned exactly as it was, and the failure is
surfaced. -/
theorem C7_no_mutation_on_client_failure (table : List InsightRow) (userId : String)
    (txs : List SimpleTx) (fetch : GeminiFetch) (now : Nat) (insertOk : Bool)
    (e : ExtractError) (h : generateSpendingInsights txs fetch = .error e) :
    (generateAndStoreInsights table userId txs fetch now insertOk).1 = table ∧
    (generateAndStoreInsights table userId txs fetch now insertOk).2
      = .error (.client e) := by
  unfold generateAndStoreInsights
  rw [h]
  exact ⟨rfl, rfl⟩

/-- C7, witness: the empty-list rejection leaves a pre-existing cache row
untouched. -/
theorem C7_no_mutation_witness :
    (generateAndStoreInsights [⟨"u1", Json.null, 0, 50⟩] "u1" [] (.ok none) 100 true).1
      = [⟨"u1", Json.null, 0, 50⟩] :=
  (C7_no_mutation_on_client_failure [⟨"u1", Json.null, 0, 50⟩] "u1" [] (.ok none)
    100 true .noTransactionData rfl).1

/-! ## Claim C10 -/

/-- C10: when the statement row is found and both database deletes succeed,
`deleteStatement` reports success even though the blob-store removal failed —
the stored document is still in the blob store afterwards. -/
theorem C10_delete_success_despite_storage_failure (db : DB) (storage : List String)
    (statementId userId : String) (st : StatementRow)
    (hfind : db.statements.find? (fun r => r.id = statementId && r.user_id = userId)
      = some st) :
    (deleteStatement db storage statementId userId true true false).2.2 = true ∧
    (deleteStatement db storage statementId userId true true false).2.1 = storage := by
  unfold deleteStatement
  rw [hfind]
  exact ⟨rfl, rfl⟩

/-- C10, witness: deleting the only statement with a failing blob-store
removal reports success and leaves the stored path in place. -/
theorem C10_delete_witness :
    (deleteStatement
      ⟨[{ id := "s1", user_id := "u1", file_name := "f.pdf",
          storage_path := "statements/u1/f.pdf", processing_status := "processed" }], []⟩
      ["statements/u1/f.pdf"] "s1" "u1" true true false).2.2 = true ∧
    (deleteStatement
      ⟨[{ id := "s1", user_id := "u1", file_name := "f.pdf",
          storage_path := "statements/u1/f.pdf", processing_status := "processed" }], []⟩
      ["statements/u1/f.pdf"] "s1" "u1" true true false).2.1
      = ["statements/u1/f.pdf"] :=
  C10_delete_success_despite_storage_failure
    ⟨[{ id := "s1", user_id := "u1", file_name := "f.pdf",
        storage_path := "statements/u1/f.pdf", processing_status := "processed" }], []⟩
    ["statements/u1/f.pdf"] "s1" "u1"
    { id := "s1", user_id := "u1", file_name := "f.pdf",
      storage_path := "statements/u1/f.pdf", processing_status := "processed" } rfl

end FinView
